import Mathlib

/-!
# QRIS decoder: `parseQRIS` and the upload `fileFilter` of `src/server.js`

A shallow embedding of the two pure pieces of `src/server.js`:

* `parseQRIS` (lines 66-95): the `while` loop that walks a tag-length-value
  string and fills a keyed object, and the record of eleven named fields
  read from that object;
* the `fileFilter` callback of the multer upload (lines 15-25).

JavaScript values are modelled as follows.

* A string is the list of its UTF-16 code units, each code unit a `Nat`
  (`JSString`).  `str` turns a Lean string literal of BMP characters into
  that list, so `str "00"` is `[48, 48]`.
* A number that the loop manipulates is either `NaN` or an integer; it is
  an `Option Int`, `none` standing for `NaN`.  (`parseInt` can also return
  negative zero; it behaves as `0` in every place the loop uses it:
  `4 + (-0)` is `4` and `substr(_, -0)` reads nothing.)
* `undefined` for a missing property is `none`.
* The object `data = {}` is a list of key/value pairs without repeated keys
  (`Obj`); `Obj.set` is the assignment `data[id] = value`, `Obj.get` the
  read `data['00']`.  No property of `Object.prototype` has a name of one
  or two code units, so a read of a key that was never assigned is
  `undefined`.
* The `while` loop may not terminate, so it is run with fuel: `loop fuel`
  performs at most `fuel` evaluations of the loop condition and is `none`
  when the fuel runs out before the condition turns false.
-/

namespace QRIS

/-! ## JavaScript strings and the built-ins used by `parseQRIS` -/

/-- A JavaScript string: the list of its UTF-16 code units. -/
abbrev JSString := List Nat

/-- The code units of a string literal of BMP characters. -/
def str (s : String) : JSString := s.toList.map Char.toNat

/-- Code units that `parseInt` skips at the start of its input: the
ECMAScript `WhiteSpace` and `LineTerminator` productions (TAB, LF, VT, FF,
CR, SP, NBSP, the `Zs` category, LS, PS, ZWNBSP). -/
def isWhiteSpace (c : Nat) : Bool :=
  c = 9 || c = 10 || c = 11 || c = 12 || c = 13 || c = 32 || c = 160 ||
  c = 0x1680 || (0x2000 ≤ c && c ≤ 0x200A) || c = 0x2028 || c = 0x2029 ||
  c = 0x202F || c = 0x205F || c = 0x3000 || c = 0xFEFF

/-- The value of a code unit as a digit: `0`-`9`, `a`-`z`, `A`-`Z`. -/
def digitValue (c : Nat) : Option Nat :=
  if 48 ≤ c ∧ c ≤ 57 then some (c - 48)
  else if 97 ≤ c ∧ c ≤ 122 then some (c - 87)
  else if 65 ≤ c ∧ c ≤ 90 then some (c - 55)
  else none

/-- Whether a code unit is a digit of radix `R`. -/
def isRadixDigit (R : Nat) (c : Nat) : Bool :=
  match digitValue c with
  | some v => decide (v < R)
  | none => false

/-- The built-in `parseInt(string)` with no radix argument (ECMAScript
`parseInt`, steps 2-16): skip leading white space, read an optional sign,
strip a `0x`/`0X` prefix (radix 16, otherwise radix 10), take the longest
run of digits; `NaN` (`none`) when that run is empty.  The loop only calls
it on at most two code units, where the result is an exact integer. -/
def parseInt (input : JSString) : Option Int :=
  let S := input.dropWhile isWhiteSpace
  let sign : Int := if S.head? = some 45 then -1 else 1
  let S := if S.head? = some 43 ∨ S.head? = some 45 then S.tail else S
  let RS : Nat × JSString :=
    match S with
    | 48 :: x :: rest => if x = 120 ∨ x = 88 then (16, rest) else (10, S)
    | _ => (10, S)
  let Z := RS.2.takeWhile (isRadixDigit RS.1)
  if Z = [] then none
  else some (sign * ((Z.foldl (fun acc c => acc * RS.1 + (digitValue c).getD 0) 0 : Nat) : Int))

/-- The built-in `String.prototype.substr(start, length)` for an integer
`start` and a `length` that is an integer or `NaN` (ECMAScript B.2.2.1):
a negative `start` counts from the end, `start` is clamped into
`[0, size]`, `length` (`NaN` read as `0`) is clamped into `[0, size]`, and
the code units from `start` up to `min (start + length) size` are
returned. -/
def substr (s : JSString) (start : Int) (length : Option Int) : JSString :=
  let size : Int := (s.length : Int)
  let intStart : Int := if start < 0 then max (size + start) 0 else min start size
  let intLength : Int := min (max (length.getD 0) 0) size
  let intEnd : Int := min (intStart + intLength) size
  (s.drop intStart.toNat).take (intEnd - intStart).toNat

/-! ## The object `data` -/

/-- The object `data`: key/value pairs, each key at most once. -/
abbrev Obj := List (JSString × JSString)

/-- The assignment `data[id] = value`. -/
def Obj.set : Obj → JSString → JSString → Obj
  | [], k, v => [(k, v)]
  | (k0, v0) :: rest, k, v =>
    if k0 = k then (k0, v) :: rest else (k0, v0) :: Obj.set rest k v

/-- The read `data[key]`; `none` is `undefined`. -/
def Obj.get : Obj → JSString → Option JSString
  | [], _ => none
  | (k0, v0) :: rest, k => if k0 = k then some v0 else Obj.get rest k

/-! ## `parseQRIS` -/

/-- The `parsed` part of the value returned by `parseQRIS`. -/
structure Parsed where
  payloadFormatIndicator : Option JSString
  merchantAccountInformation : Option JSString
  merchantCategoryCode : Option JSString
  transactionCurrency : Option JSString
  transactionAmount : Option JSString
  countryCode : Option JSString
  merchantName : Option JSString
  merchantCity : Option JSString
  postalCode : Option JSString
  additionalData : Option JSString
  crc : Option JSString
deriving DecidableEq

/-- The value returned by `parseQRIS`: `{ raw, parsed }`. -/
structure Result where
  raw : JSString
  parsed : Parsed
deriving DecidableEq

/-- One execution of the loop body (lines 71-76) at the integer cursor `i`:
the new object and the new cursor.  `i += 4 + length` is `NaN` when
`length` is `NaN`. -/
def loopBody (qrisString : JSString) (i : Int) (data : Obj) : Obj × Option Int :=
  let id := substr qrisString i (some 2)
  let length := parseInt (substr qrisString (i + 2) (some 2))
  let value := substr qrisString (i + 4) length
  (data.set id value, length.map (fun l => i + (4 + l)))

/-- The `while (i < qrisString.length)` loop (lines 70-77) with fuel: every
evaluation of the condition costs one unit.  `NaN < n` is false, so a `NaN`
cursor leaves the loop.  The result is the object `data` at loop exit, or
`none` when the fuel is used up first. -/
def loop : Nat → JSString → Option Int → Obj → Option Obj
  | 0, _, _, _ => none
  | _ + 1, _, none, data => some data
  | fuel + 1, qrisString, some i, data =>
    if i < (qrisString.length : Int) then
      loop fuel qrisString (loopBody qrisString i data).2 (loopBody qrisString i data).1
    else some data

/-- The cursor and the object after exactly `n` executions of the loop body,
starting from cursor `i` and object `data`; `none` when the loop is left
before the `n`-th execution. -/
def stateAfter : Nat → JSString → Option Int → Obj → Option (Option Int × Obj)
  | 0, _, i, data => some (i, data)
  | _ + 1, _, none, _ => none
  | n + 1, qrisString, some i, data =>
    if i < (qrisString.length : Int) then
      stateAfter n qrisString (loopBody qrisString i data).2 (loopBody qrisString i data).1
    else none

/-- The record of named fields built at lines 81-93 from `data`. -/
def parsedOf (data : Obj) : Parsed :=
  { payloadFormatIndicator := data.get (str "00")
    merchantAccountInformation := data.get (str "26")
    merchantCategoryCode := data.get (str "52")
    transactionCurrency := data.get (str "53")
    transactionAmount := data.get (str "54")
    countryCode := data.get (str "58")
    merchantName := data.get (str "59")
    merchantCity := data.get (str "60")
    postalCode := data.get (str "61")
    additionalData := data.get (str "62")
    crc := data.get (str "63") }

/-- The function `parseQRIS` (lines 66-95), run with `fuel` evaluations of
the loop condition: `none` when the loop has not finished by then. -/
def parseQRIS (fuel : Nat) (qrisString : JSString) : Option Result :=
  (loop fuel qrisString (some 0) []).map
    (fun data => { raw := qrisString, parsed := parsedOf data })

/-! ## The upload `fileFilter` -/

/-- The built-in `String.prototype.toLowerCase` on the ASCII letters; other
code units are left as they are.  (No character outside `A`-`Z` lowers to
one of the letters `j p e g n`, so this agrees with the built-in on whether
the lowered string contains `jpeg`, `jpg` or `png`.) -/
def toLowerCase (s : JSString) : JSString :=
  s.map (fun c => if 65 ≤ c ∧ c ≤ 90 then c + 32 else c)

/-- Whether `p` occurs in `s` as a run of consecutive code units. -/
def occursIn (p s : JSString) : Bool :=
  s.tails.any (fun t => p.isPrefixOf t)

/-- The test `allowedTypes.test(s)` with `allowedTypes = /jpeg|jpg|png/`
(line 16): the regular expression has no anchor, so it matches when one of
the three words occurs anywhere in `s`. -/
def allowedTypes_test (s : JSString) : Bool :=
  occursIn (str "jpeg") s || occursIn (str "jpg") s || occursIn (str "png") s

/-- The uploaded file as the filter sees it. -/
structure File where
  originalname : JSString
  mimetype : JSString
deriving DecidableEq

/-- What the filter passes to its callback `cb`: `cb(null, true)` or
`cb(new Error(message))`. -/
inductive Callback where
  | accept
  | error (message : String)
deriving DecidableEq

/-- The `fileFilter` of the upload (lines 15-25). -/
def fileFilter (file : File) : Callback :=
  let extname := allowedTypes_test (toLowerCase file.originalname)
  let mimetype := allowedTypes_test file.mimetype
  if mimetype && extname then Callback.accept
  else Callback.error "Hanya file gambar (JPEG, JPG, PNG) yang diperbolehkan!"

/-! ## Well-formed payloads (the vocabulary of the specification) -/

/-- One tag-length-value element of a payload. -/
structure Element where
  tag : JSString
  value : JSString
deriving DecidableEq

/-- A well-formed element: a tag of exactly two code units and a value of
at most 99 code units. -/
def Element.WF (e : Element) : Prop := e.tag.length = 2 ∧ e.value.length ≤ 99

instance (e : Element) : Decidable e.WF := by
  unfold Element.WF; infer_instance

/-- The zero-padded two-digit decimal form of a length below 100. -/
def pad2 (n : Nat) : JSString := [48 + n / 10, 48 + n % 10]

/-- The text of one element: tag, two-digit length, value. -/
def Element.serialize (e : Element) : JSString :=
  e.tag ++ pad2 e.value.length ++ e.value

/-- The text of a payload: the concatenation of its elements. -/
def serialize : List Element → JSString
  | [] => []
  | e :: es => e.serialize ++ serialize es

/-- The value of the last element of the list that carries the tag `t`,
`none` when no element carries it. -/
def lastValue (es : List Element) (t : JSString) : Option JSString :=
  (es.reverse.find? (fun e => decide (e.tag = t))).map Element.value

/-- The record of named fields in which every field is the value of the
last element with the field's tag. -/
def lastWins (es : List Element) : Parsed :=
  { payloadFormatIndicator := lastValue es (str "00")
    merchantAccountInformation := lastValue es (str "26")
    merchantCategoryCode := lastValue es (str "52")
    transactionCurrency := lastValue es (str "53")
    transactionAmount := lastValue es (str "54")
    countryCode := lastValue es (str "58")
    merchantName := lastValue es (str "59")
    merchantCity := lastValue es (str "60")
    postalCode := lastValue es (str "61")
    additionalData := lastValue es (str "62")
    crc := lastValue es (str "63") }

/-- The object after the assignments `data[tag] = value` for the elements of
`es`, in order, starting from `d`. -/
def fill (d : Obj) (es : List Element) : Obj :=
  es.foldl (fun d e => d.set e.tag e.value) d

/-- The eleven tags that `parseQRIS` reads back from `data`. -/
def namedTags : List JSString :=
  [str "00", str "26", str "52", str "53", str "54", str "58", str "59", str "60",
   str "61", str "62", str "63"]

/-- The keys of the object, in insertion order. -/
def Obj.keys (d : Obj) : List JSString := d.map Prod.fst

/-- The acceptance condition in the words of the specification: the
lower-cased `originalname` ends with `.jpeg`, `.jpg` or `.png` and `mimetype`
is one of `image/jpeg`, `image/jpg`, `image/png`. -/
def claimedAccept (file : File) : Bool :=
  ((str ".jpeg").isSuffixOf (toLowerCase file.originalname)
    || (str ".jpg").isSuffixOf (toLowerCase file.originalname)
    || (str ".png").isSuffixOf (toLowerCase file.originalname))
  && (file.mimetype == str "image/jpeg" || file.mimetype == str "image/jpg"
    || file.mimetype == str "image/png")

/-! ## Evaluation on concrete inputs -/

theorem str_eval : str "00-4" = [48, 48, 45, 52] := by decide

theorem parseInt_eval :
    parseInt (str "02") = some 2 ∧ parseInt (str "-4") = some (-4)
    ∧ parseInt (str "+7") = some 7 ∧ parseInt (str " 7") = some 7
    ∧ parseInt (str "7z") = some 7 ∧ parseInt (str "0x") = none
    ∧ parseInt (str "zz") = none ∧ parseInt (str "") = none := by
  decide

theorem substr_eval :
    substr (str "000201") 4 (some 2) = str "01"
    ∧ substr (str "000201") 4 (some 9) = str "01"
    ∧ substr (str "000201") 4 (some (-4)) = []
    ∧ substr (str "000201") 4 none = []
    ∧ substr (str "000201") 9 (some 2) = []
    ∧ substr (str "000201") (-2) (some 2) = str "01" := by
  decide

theorem parseQRIS_eval :
    parseQRIS 2 (str "000201")
      = some { raw := str "000201", parsed := lastWins [⟨str "00", str "01"⟩] } := by
  decide

/-! ## The built-ins on the inputs the loop gives them -/

theorem substr_nat (s : JSString) (start n : Nat) :
    substr s (start : Int) (some (n : Int)) = (s.drop start).take n := by
  unfold substr
  simp only [Option.getD_some]
  have h0 : ¬ ((start : Int) < 0) := by omega
  rw [if_neg h0]
  by_cases hs : start ≤ s.length
  · have e1 : (min (start : Int) (s.length : Int)).toNat = start := by omega
    have e2 : (min ((min (start : Int) (s.length : Int)) + min (max (n : Int) 0) (s.length : Int))
        (s.length : Int) - min (start : Int) (s.length : Int)).toNat
        = min n (s.drop start).length := by
      rw [List.length_drop]; omega
    rw [e1, e2, List.take_eq_take]
    omega
  · have e1 : (min (start : Int) (s.length : Int)).toNat = s.length := by omega
    rw [e1]
    have d1 : s.drop s.length = [] := List.drop_length s
    have d2 : s.drop start = [] := List.drop_eq_nil_of_le (by omega)
    rw [d1, d2]; simp

theorem substr_nan (s : JSString) (start : Int) : substr s start none = [] := by
  unfold substr
  simp only [Option.getD_none]
  have : (min ((if start < 0 then max ((s.length : Int) + start) 0 else min start (s.length : Int)) +
      min (max (0 : Int) 0) (s.length : Int)) (s.length : Int) -
      (if start < 0 then max ((s.length : Int) + start) 0 else min start (s.length : Int))).toNat = 0 := by
    split <;> omega
  rw [this]; simp

theorem substr_neg (s : JSString) (start l : Int) (hl : l ≤ 0) :
    substr s start (some l) = [] := by
  unfold substr
  simp only [Option.getD_some]
  have : (min ((if start < 0 then max ((s.length : Int) + start) 0 else min start (s.length : Int)) +
      min (max l 0) (s.length : Int)) (s.length : Int) -
      (if start < 0 then max ((s.length : Int) + start) 0 else min start (s.length : Int))).toNat = 0 := by
    split <;> omega
  rw [this]; simp

theorem substr_append (pre rest : JSString) (k n : Nat) :
    substr (pre ++ rest) ((pre.length : Int) + (k : Int)) (some (n : Int))
      = (rest.drop k).take n := by
  have h := substr_nat (pre ++ rest) (pre.length + k) n
  rw [List.drop_append] at h
  rw [← h]
  congr 1

theorem substr_append_nan (pre rest : JSString) (k : Nat) (l : Option Int)
    (hl : l = none ∨ ∃ m : Int, l = some m ∧ m ≤ 0) :
    substr (pre ++ rest) ((pre.length : Int) + (k : Int)) l = [] := by
  rcases hl with rfl | ⟨m, rfl, hm⟩
  · exact substr_nan _ _
  · exact substr_neg _ _ _ hm

set_option maxRecDepth 100000 in
theorem parseInt_pad2_lt : ∀ n < 100, parseInt (pad2 n) = some (n : Int) := by
  decide

theorem parseInt_pad2 (n : Nat) (h : n ≤ 99) : parseInt (pad2 n) = some (n : Int) :=
  parseInt_pad2_lt n (by omega)

/-! ## The loop on a well-formed element -/

theorem loopBody_element (pre rest : JSString) (e : Element) (he : e.WF) (d : Obj) :
    loopBody (pre ++ (e.serialize ++ rest)) (pre.length : Int) d
      = (d.set e.tag e.value, some ((pre.length : Int) + (4 + (e.value.length : Int)))) := by
  obtain ⟨ht, hv⟩ := he
  obtain ⟨a, b, hab⟩ := List.length_eq_two.mp ht
  have hser : e.serialize ++ rest
      = a :: b :: (48 + e.value.length / 10) :: (48 + e.value.length % 10) :: (e.value ++ rest) := by
    simp [Element.serialize, pad2, hab]
  have h0 := substr_append pre (e.serialize ++ rest) 0 2
  have h2 := substr_append pre (e.serialize ++ rest) 2 2
  have h4 := substr_append pre (e.serialize ++ rest) 4 e.value.length
  have hp := parseInt_pad2 e.value.length hv
  simp only [Nat.cast_zero, add_zero, Nat.cast_ofNat] at h0 h2 h4
  unfold loopBody
  simp only [h0, h2]
  rw [hser] at *
  simp only [List.take, List.drop] at *
  have hp2 : parseInt [48 + e.value.length / 10, 48 + e.value.length % 10]
      = some (e.value.length : Int) := hp
  rw [hp2, h4, hab]
  simp

theorem length_serialize_element (e : Element) (he : e.WF) :
    e.serialize.length = 4 + e.value.length := by
  simp [Element.serialize, pad2, he.1]; omega

theorem serialize_append (xs ys : List Element) :
    serialize (xs ++ ys) = serialize xs ++ serialize ys := by
  induction xs with
  | nil => rfl
  | cons x xs ih => simp [serialize, ih]

theorem loop_elements (es : List Element) (hes : ∀ e ∈ es, e.WF) :
    ∀ (pre rest : JSString) (d : Obj) (fuel : Nat),
      loop (es.length + fuel) (pre ++ (serialize es ++ rest)) (some (pre.length : Int)) d
        = loop fuel (pre ++ (serialize es ++ rest))
            (some ((pre ++ serialize es).length : Int)) (fill d es) := by
  induction es with
  | nil => intro pre rest d fuel; simp [serialize, fill]
  | cons e es ih =>
    intro pre rest d fuel
    have he : e.WF := hes e (List.mem_cons_self _ _)
    have hes2 : ∀ x ∈ es, x.WF := fun x hx => hes x (List.mem_cons_of_mem _ hx)
    have hlen := length_serialize_element e he
    have hs : pre ++ (serialize (e :: es) ++ rest)
        = pre ++ (e.serialize ++ (serialize es ++ rest)) := by
      simp [serialize]
    have hs2 : pre ++ (serialize (e :: es) ++ rest)
        = (pre ++ e.serialize) ++ (serialize es ++ rest) := by
      simp [serialize]
    have hfuel : (e :: es).length + fuel = (es.length + fuel) + 1 := by
      simp only [List.length_cons]; omega
    rw [hfuel, loop]
    have hcond : (pre.length : Int) < ((pre ++ (serialize (e :: es) ++ rest)).length : Int) := by
      rw [hs]; simp only [List.length_append, hlen]; omega
    rw [if_pos hcond]
    have hbody := loopBody_element pre (serialize es ++ rest) e he d
    rw [← hs] at hbody
    rw [hbody]
    simp only
    have hcur : (pre.length : Int) + (4 + (e.value.length : Int))
        = ((pre ++ e.serialize).length : Int) := by
      simp only [List.length_append, hlen]; push_cast; ring
    have ih2 := ih hes2 (pre ++ e.serialize) rest (d.set e.tag e.value) fuel
    rw [← hs2] at ih2
    rw [hcur, ih2]
    have hend : (pre ++ e.serialize ++ serialize es) = (pre ++ serialize (e :: es)) := by
      simp [serialize]
    rw [hend]
    rfl

theorem loop_exit (fuel : Nat) (s : JSString) (i : Int) (d : Obj)
    (h : (s.length : Int) ≤ i) : loop (fuel + 1) s (some i) d = some d := by
  rw [loop, if_neg (by omega)]

theorem loop_serialize (es : List Element) (hes : ∀ e ∈ es, e.WF) (fuel : Nat)
    (hf : es.length < fuel) :
    loop fuel (serialize es) (some 0) [] = some (fill [] es) := by
  obtain ⟨k, rfl⟩ : ∃ k, fuel = es.length + (k + 1) := ⟨fuel - es.length - 1, by omega⟩
  have h := loop_elements es hes [] [] [] (k + 1)
  simp only [List.nil_append, List.append_nil, List.length_nil, Nat.cast_zero] at h
  rw [h]
  exact loop_exit k _ _ _ (le_refl _)

/-! ## Reading the object -/

theorem Obj.get_set (d : Obj) (k v t : JSString) :
    (d.set k v).get t = if k = t then some v else d.get t := by
  induction d with
  | nil => simp [Obj.set, Obj.get]
  | cons p rest ih =>
    obtain ⟨k0, v0⟩ := p
    by_cases h0 : k0 = k
    · subst h0
      by_cases h1 : k0 = t <;> simp [Obj.set, Obj.get, h1]
    · by_cases h1 : k0 = t
      · subst h1
        have : ¬ k = k0 := fun h => h0 h.symm
        simp [Obj.set, Obj.get, h0, this]
      · simp [Obj.set, Obj.get, h0, h1, ih]

theorem lastValue_nil (t : JSString) : lastValue [] t = none := rfl

theorem lastValue_append_singleton (es : List Element) (e : Element) (t : JSString) :
    lastValue (es ++ [e]) t = if e.tag = t then some e.value else lastValue es t := by
  unfold lastValue
  by_cases h : e.tag = t <;> simp [List.find?, h]

theorem fill_append (d : Obj) (xs ys : List Element) :
    fill d (xs ++ ys) = fill (fill d xs) ys := by
  simp [fill, List.foldl_append]

theorem get_fill (es : List Element) (d : Obj) (t : JSString) :
    (fill d es).get t = (lastValue es t).or (d.get t) := by
  induction es using List.reverseRecOn with
  | nil => simp [fill, lastValue]
  | append_singleton es e ih =>
    rw [fill_append, lastValue_append_singleton]
    have : fill (fill d es) [e] = (fill d es).set e.tag e.value := rfl
    rw [this, Obj.get_set, ih]
    by_cases h : e.tag = t <;> simp [h]

theorem get_fill_nil (es : List Element) (t : JSString) :
    (fill [] es).get t = lastValue es t := by
  rw [get_fill]; simp [Obj.get]

theorem parsedOf_fill (es : List Element) : parsedOf (fill [] es) = lastWins es := by
  simp [parsedOf, lastWins, get_fill_nil]

theorem lastValue_append (xs ys : List Element) (t : JSString) :
    lastValue (xs ++ ys) t = (lastValue ys t).or (lastValue xs t) := by
  unfold lastValue
  rw [List.reverse_append, List.find?_append]
  cases List.find? (fun e => decide (e.tag = t)) ys.reverse <;> simp

theorem lastValue_singleton (e : Element) (t : JSString) :
    lastValue [e] t = if e.tag = t then some e.value else none := by
  have h := lastValue_append_singleton [] e t
  simpa [lastValue_nil] using h

/-- An element carrying the tag, followed only by elements with other tags, is
the one whose value `lastValue` returns. -/
theorem lastValue_of_last (xs ys : List Element) (e : Element)
    (hys : ∀ y ∈ ys, y.tag ≠ e.tag) : lastValue (xs ++ e :: ys) e.tag = some e.value := by
  have hnone : lastValue ys e.tag = none := by
    unfold lastValue
    simp only [Option.map_eq_none', List.find?_eq_none, List.mem_reverse, decide_eq_true_eq]
    exact hys
  have hcons : lastValue (e :: ys) e.tag = some e.value := by
    have := lastValue_append [e] ys e.tag
    simp only [List.singleton_append] at this
    rw [this, hnone, lastValue_singleton]; simp
  rw [lastValue_append, hcons]; rfl

/-- No value exactly when no element carries the tag. -/
theorem lastValue_eq_none_iff (es : List Element) (t : JSString) :
    lastValue es t = none ↔ ∀ e ∈ es, e.tag ≠ t := by
  unfold lastValue
  simp only [Option.map_eq_none', List.find?_eq_none, List.mem_reverse, decide_eq_true_eq]

/-! ## Fuel -/

theorem loop_succ (fuel : Nat) (s : JSString) :
    ∀ (i : Option Int) (d r : Obj), loop fuel s i d = some r → loop (fuel + 1) s i d = some r := by
  induction fuel with
  | zero => intro i d r h; simp [loop] at h
  | succ n ih =>
    intro i d r h
    cases i with
    | none => simpa [loop] using h
    | some i =>
      rw [loop] at h ⊢
      by_cases hc : i < (s.length : Int)
      · rw [if_pos hc] at h ⊢
        exact ih _ _ _ h
      · rw [if_neg hc] at h ⊢
        exact h

theorem loop_add (k fuel : Nat) (s : JSString) (i : Option Int) (d r : Obj)
    (h : loop fuel s i d = some r) : loop (k + fuel) s i d = some r := by
  induction k with
  | zero => simpa using h
  | succ k ih =>
    have : k + 1 + fuel = (k + fuel) + 1 := by omega
    rw [this]
    exact loop_succ _ _ _ _ _ ih

theorem parseQRIS_of_loop (k fuel : Nat) (s : JSString) (r : Obj)
    (h : loop fuel s (some 0) [] = some r) :
    parseQRIS (k + fuel) s = some { raw := s, parsed := parsedOf r } := by
  unfold parseQRIS
  rw [loop_add k fuel s _ _ r h]
  rfl

/-! ## Well-formed payloads -/

theorem parseQRIS_serialize (es : List Element) (hes : ∀ e ∈ es, e.WF)
    (fuel : Nat) (hf : es.length < fuel) :
    parseQRIS fuel (serialize es)
      = some { raw := serialize es, parsed := lastWins es } := by
  unfold parseQRIS
  rw [loop_serialize es hes fuel hf, Option.map_some', parsedOf_fill]

/-- C1: for every well-formed payload (the concatenation of elements, each a
two-code-unit tag, the zero-padded two-digit length and a value of at most 99
code units), `parseQRIS` returns, with any fuel above the number of elements,
the record whose eleven named fields are the values, verbatim, of the LAST
element carrying tag 00, 26, 52, 53, 54, 58, 59, 60, 61, 62, 63 respectively,
and `undefined` where no element carries the tag. -/
theorem parseQRIS_wellformed (es : List Element) (hes : ∀ e ∈ es, e.WF)
    (fuel : Nat) (hf : es.length < fuel) :
    parseQRIS fuel (serialize es)
      = some { raw := serialize es, parsed := lastWins es } :=
  parseQRIS_serialize es hes fuel hf

theorem parseQRIS_wellformed_witness :
    parseQRIS 4 (serialize [⟨str "00", str "01"⟩, ⟨str "59", str " Toko A "⟩, ⟨str "00", str "0002ZZ"⟩])
      = some { raw := str "0002015908 Toko A 00060002ZZ",
               parsed :=
                { payloadFormatIndicator := some (str "0002ZZ")
                  merchantAccountInformation := none
                  merchantCategoryCode := none
                  transactionCurrency := none
                  transactionAmount := none
                  countryCode := none
                  merchantName := some (str " Toko A ")
                  merchantCity := none
                  postalCode := none
                  additionalData := none
                  crc := none } } :=
  parseQRIS_wellformed
    [⟨str "00", str "01"⟩, ⟨str "59", str " Toko A "⟩, ⟨str "00", str "0002ZZ"⟩]
    (by decide) 4 (by decide)

/-! ## A negative length field -/

theorem loop_stuck (fuel : Nat) : ∀ d : Obj, loop fuel (str "00-4") (some 0) d = none := by
  induction fuel with
  | zero => intro d; rfl
  | succ n ih =>
    intro d
    rw [loop]
    have hc : (0 : Int) < ((str "00-4").length : Int) := by decide
    have h2 : (loopBody (str "00-4") 0 d).2 = some 0 := by rfl
    rw [if_pos hc, h2]
    exact ih _

/-- C2 (the code does not terminate on every input): on the four-character
input `00-4` the length field `-4` is read by `parseInt` as the negative
number -4, the loop body leaves the cursor at 0 (`i += 4 + (-4)`) and records
the empty string under tag `00`, so the state after one execution of the body
is the state after two, and no amount of fuel lets `parseQRIS` return. -/
theorem parseQRIS_diverges :
    parseInt (substr (str "00-4") (0 + 2) (some 2)) = some (-4)
    ∧ stateAfter 1 (str "00-4") (some 0) [] = some (some 0, [(str "00", [])])
    ∧ stateAfter 2 (str "00-4") (some 0) [] = some (some 0, [(str "00", [])])
    ∧ ∀ fuel : Nat, parseQRIS fuel (str "00-4") = none := by
  refine ⟨by decide, by decide, by decide, ?_⟩
  intro fuel
  unfold parseQRIS
  rw [loop_stuck fuel []]
  rfl

/-! ## Scenario A -/

/-- C6, as stated, fails: on `00020101` the object built by the loop is not
the single entry `00 -> 01`.  After the element `000201` two characters `01`
remain; the loop body runs a second time, reads them as a tag with no length
field, and records the empty string under tag `01`. -/
theorem scenarioA_map_has_two_entries :
    loop 3 (str "00020101") (some 0) [] ≠ some [(str "00", str "01")]
    ∧ stateAfter 1 (str "00020101") (some 0) [] = some (some 6, [(str "00", str "01")])
    ∧ stateAfter 2 (str "00020101") (some 0) []
        = some (none, [(str "00", str "01"), (str "01", [])]) := by
  decide

/-- C6, amended: `parseQRIS` on `00020101` returns (with any fuel of 3 or more)
a result with `payloadFormatIndicator = "01"` and every other named field
absent; the loop body runs twice and the object it builds holds the two
entries `00 -> "01"` and `01 -> ""`. -/
theorem scenarioA (k : Nat) :
    parseQRIS (k + 3) (str "00020101")
      = some { raw := str "00020101",
               parsed :=
                { payloadFormatIndicator := some (str "01")
                  merchantAccountInformation := none
                  merchantCategoryCode := none
                  transactionCurrency := none
                  transactionAmount := none
                  countryCode := none
                  merchantName := none
                  merchantCity := none
                  postalCode := none
                  additionalData := none
                  crc := none } }
    ∧ loop (k + 3) (str "00020101") (some 0) []
        = some [(str "00", str "01"), (str "01", [])] := by
  have h : loop 3 (str "00020101") (some 0) []
      = some [(str "00", str "01"), (str "01", [])] := by decide
  exact ⟨parseQRIS_of_loop k 3 _ _ h, loop_add k 3 _ _ _ _ h⟩

/-! ## Merchant account information -/

/-- C7, as stated, fails: a payload whose only merchant-account element has tag
51 yields no `merchantAccountInformation`; with an element of tag 51 before
one of tag 26 the field is the value of tag 26, not of the first element in
the range; and with two elements of tag 26 it is the value of the second. -/
theorem merchantAccountInformation_not_from_range :
    (parseQRIS 2 (serialize [⟨str "51", str "AB"⟩])).map
        (fun r => r.parsed.merchantAccountInformation) = some none
    ∧ (parseQRIS 3 (serialize [⟨str "51", str "AB"⟩, ⟨str "26", str "CD"⟩])).map
        (fun r => r.parsed.merchantAccountInformation) = some (some (str "CD"))
    ∧ (parseQRIS 3 (serialize [⟨str "26", str "AB"⟩, ⟨str "26", str "CD"⟩])).map
        (fun r => r.parsed.merchantAccountInformation) = some (some (str "CD")) := by
  decide

/-- C7, amended: for every well-formed payload the `merchantAccountInformation`
field of the result is read from tag 26 alone: it is the value of the last
element with tag 26, and it is absent exactly when no element has tag 26
(whatever elements with tags 27 to 51 the payload contains). -/
theorem merchantAccountInformation_tag26 (es : List Element) (hes : ∀ e ∈ es, e.WF)
    (fuel : Nat) (hf : es.length < fuel) :
    (parseQRIS fuel (serialize es)).map (fun r => r.parsed.merchantAccountInformation)
        = some (lastValue es (str "26"))
    ∧ (lastValue es (str "26") = none ↔ ∀ e ∈ es, e.tag ≠ str "26") := by
  refine ⟨?_, lastValue_eq_none_iff es _⟩
  unfold parseQRIS
  rw [loop_serialize es hes fuel hf]
  simp only [Option.map_some', parsedOf, get_fill_nil]

theorem merchantAccountInformation_tag26_witness :
    (parseQRIS 4 (serialize [⟨str "26", str "AB"⟩, ⟨str "51", str "EF"⟩, ⟨str "26", str "CD"⟩])).map
        (fun r => r.parsed.merchantAccountInformation)
        = some (lastValue [⟨str "26", str "AB"⟩, ⟨str "51", str "EF"⟩, ⟨str "26", str "CD"⟩] (str "26"))
    ∧ (lastValue [⟨str "26", str "AB"⟩, ⟨str "51", str "EF"⟩, ⟨str "26", str "CD"⟩] (str "26") = none
        ↔ ∀ e ∈ [(⟨str "26", str "AB"⟩ : Element), ⟨str "51", str "EF"⟩, ⟨str "26", str "CD"⟩],
            e.tag ≠ str "26") :=
  merchantAccountInformation_tag26
    [⟨str "26", str "AB"⟩, ⟨str "51", str "EF"⟩, ⟨str "26", str "CD"⟩] (by decide) 4 (by decide)

/-! ## Input that goes on after the last well-formed element -/

theorem stateAfter_elements (es : List Element) (hes : ∀ e ∈ es, e.WF) :
    ∀ (pre rest : JSString) (d : Obj),
      stateAfter es.length (pre ++ (serialize es ++ rest)) (some (pre.length : Int)) d
        = some (some ((pre ++ serialize es).length : Int), fill d es) := by
  induction es with
  | nil => intro pre rest d; simp [serialize, fill, stateAfter]
  | cons e es ih =>
    intro pre rest d
    have he : e.WF := hes e (List.mem_cons_self _ _)
    have hes2 : ∀ x ∈ es, x.WF := fun x hx => hes x (List.mem_cons_of_mem _ hx)
    have hlen := length_serialize_element e he
    have hs : pre ++ (serialize (e :: es) ++ rest)
        = pre ++ (e.serialize ++ (serialize es ++ rest)) := by
      simp [serialize]
    have hs2 : pre ++ (serialize (e :: es) ++ rest)
        = (pre ++ e.serialize) ++ (serialize es ++ rest) := by
      simp [serialize]
    rw [List.length_cons, stateAfter]
    have hcond : (pre.length : Int) < ((pre ++ (serialize (e :: es) ++ rest)).length : Int) := by
      rw [hs]; simp only [List.length_append, hlen]; omega
    rw [if_pos hcond]
    have hbody := loopBody_element pre (serialize es ++ rest) e he d
    rw [← hs] at hbody
    rw [hbody]
    simp only
    have hcur : (pre.length : Int) + (4 + (e.value.length : Int))
        = ((pre ++ e.serialize).length : Int) := by
      simp only [List.length_append, hlen]; push_cast; ring
    have ih2 := ih hes2 (pre ++ e.serialize) rest (d.set e.tag e.value)
    rw [← hs2] at ih2
    rw [hcur, ih2]
    have hend : (pre ++ e.serialize ++ serialize es) = (pre ++ serialize (e :: es)) := by
      simp [serialize]
    rw [hend]
    rfl

theorem loop_tail (es : List Element) (hes : ∀ e ∈ es, e.WF) (rest : JSString)
    (hrest : rest ≠ []) (d1 : Obj) (c : Option Int)
    (hbody : loopBody (serialize es ++ rest) ((serialize es).length : Int) (fill [] es) = (d1, c))
    (hc : ∀ j : Int, c = some j → ((serialize es ++ rest).length : Int) ≤ j)
    (fuel : Nat) (hf : es.length + 1 < fuel) :
    loop fuel (serialize es ++ rest) (some 0) [] = some d1 := by
  obtain ⟨k, rfl⟩ : ∃ k, fuel = es.length + (k + 2) := ⟨fuel - es.length - 2, by omega⟩
  have h := loop_elements es hes [] rest [] (k + 2)
  simp only [List.nil_append, List.length_nil, Nat.cast_zero] at h
  rw [h, loop]
  have hpos : 0 < rest.length := List.length_pos.mpr hrest
  have hcond : ((serialize es).length : Int) < ((serialize es ++ rest).length : Int) := by
    simp only [List.length_append]; omega
  rw [if_pos hcond, hbody]
  simp only
  cases c with
  | none => rfl
  | some j => exact loop_exit k _ _ _ (hc j rfl)

theorem loopBody_nan (s : JSString) (i : Int) (d : Obj)
    (hnan : parseInt (substr s (i + 2) (some 2)) = none) :
    loopBody s i d = (d.set (substr s i (some 2)) [], none) := by
  unfold loopBody
  simp only [hnan, substr_nan, Option.map_none']

/-- C10, as stated, fails: on `00020100zz` the parse decodes tag `00` with value
`01`, reaches cursor 6 where the length field `zz` is not a number, and
records the empty string under the tag read there, which is `00` again: the
tag decoded before position 6 does not keep its value. -/
theorem nan_length_overwrites_same_tag :
    stateAfter 1 (str "00020100zz") (some 0) [] = some (some 6, [(str "00", str "01")])
    ∧ parseInt (substr (str "00020100zz") (6 + 2) (some 2)) = none
    ∧ stateAfter 2 (str "00020100zz") (some 0) [] = some (none, [(str "00", [])])
    ∧ (parseQRIS 3 (str "00020100zz")).map (fun r => r.parsed.payloadFormatIndicator)
        = some (some []) := by
  decide

/-- C10, amended: let the input be a run of well-formed elements `es` followed
by a non-empty `rest`, so that the parse reaches the cursor `i` at the end of
the elements with `i < length`, and let `parseInt` of the two characters at
`i + 2` be `NaN`.  Then the parse reaches `i` with the object built from `es`;
the loop body records the empty string under the tag read at `i` and makes the
cursor `NaN`; `parseQRIS` returns (with any fuel above the number of elements
plus one) a result whose `raw` is the unchanged input; in the returned
object the tag read at `i` has the empty string as value and every OTHER tag
has the value it had before position `i` (a tag equal to the one read at `i`
is overwritten by the empty string). -/
theorem parseQRIS_nan_length (es : List Element) (hes : ∀ e ∈ es, e.WF)
    (rest : JSString) (hrest : rest ≠ [])
    (hnan : parseInt (substr (serialize es ++ rest) (((serialize es).length : Int) + 2) (some 2))
      = none)
    (fuel : Nat) (hf : es.length + 1 < fuel) :
    stateAfter es.length (serialize es ++ rest) (some 0) []
        = some (some ((serialize es).length : Int), fill [] es)
    ∧ loopBody (serialize es ++ rest) ((serialize es).length : Int) (fill [] es)
        = ((fill [] es).set (substr (serialize es ++ rest) ((serialize es).length : Int) (some 2)) [],
            none)
    ∧ parseQRIS fuel (serialize es ++ rest)
        = some { raw := serialize es ++ rest,
                 parsed := parsedOf ((fill [] es).set
                    (substr (serialize es ++ rest) ((serialize es).length : Int) (some 2)) []) }
    ∧ ((fill [] es).set (substr (serialize es ++ rest) ((serialize es).length : Int) (some 2)) []).get
          (substr (serialize es ++ rest) ((serialize es).length : Int) (some 2)) = some []
    ∧ ∀ t : JSString, t ≠ substr (serialize es ++ rest) ((serialize es).length : Int) (some 2) →
        ((fill [] es).set (substr (serialize es ++ rest) ((serialize es).length : Int) (some 2)) []).get t
          = (fill [] es).get t := by
  have hbody := loopBody_nan (serialize es ++ rest) ((serialize es).length : Int) (fill [] es) hnan
  have hst := stateAfter_elements es hes [] rest []
  simp only [List.nil_append, List.length_nil, Nat.cast_zero] at hst
  refine ⟨hst, hbody, ?_, ?_, ?_⟩
  · unfold parseQRIS
    rw [loop_tail es hes rest hrest _ none hbody (by intro j hj; cases hj) fuel hf]
    rfl
  · rw [Obj.get_set]; simp
  · intro t ht
    rw [Obj.get_set, if_neg (fun h => ht h.symm)]

theorem parseQRIS_nan_length_witness :
    stateAfter 1 (serialize [⟨str "00", str "01"⟩] ++ str "59zzToko") (some 0) []
        = some (some ((serialize [⟨str "00", str "01"⟩]).length : Int), fill [] [⟨str "00", str "01"⟩])
    ∧ loopBody (serialize [⟨str "00", str "01"⟩] ++ str "59zzToko")
          ((serialize [⟨str "00", str "01"⟩]).length : Int) (fill [] [⟨str "00", str "01"⟩])
        = ((fill [] [⟨str "00", str "01"⟩]).set
            (substr (serialize [⟨str "00", str "01"⟩] ++ str "59zzToko")
              ((serialize [⟨str "00", str "01"⟩]).length : Int) (some 2)) [], none)
    ∧ parseQRIS 3 (serialize [⟨str "00", str "01"⟩] ++ str "59zzToko")
        = some { raw := serialize [⟨str "00", str "01"⟩] ++ str "59zzToko",
                 parsed := parsedOf ((fill [] [⟨str "00", str "01"⟩]).set
                    (substr (serialize [⟨str "00", str "01"⟩] ++ str "59zzToko")
                      ((serialize [⟨str "00", str "01"⟩]).length : Int) (some 2)) []) }
    ∧ ((fill [] [⟨str "00", str "01"⟩]).set
          (substr (serialize [⟨str "00", str "01"⟩] ++ str "59zzToko")
            ((serialize [⟨str "00", str "01"⟩]).length : Int) (some 2)) []).get
          (substr (serialize [⟨str "00", str "01"⟩] ++ str "59zzToko")
            ((serialize [⟨str "00", str "01"⟩]).length : Int) (some 2)) = some []
    ∧ ∀ t : JSString,
        t ≠ substr (serialize [⟨str "00", str "01"⟩] ++ str "59zzToko")
              ((serialize [⟨str "00", str "01"⟩]).length : Int) (some 2) →
        ((fill [] [⟨str "00", str "01"⟩]).set
          (substr (serialize [⟨str "00", str "01"⟩] ++ str "59zzToko")
            ((serialize [⟨str "00", str "01"⟩]).length : Int) (some 2)) []).get t
          = (fill [] [⟨str "00", str "01"⟩]).get t :=
  parseQRIS_nan_length [⟨str "00", str "01"⟩] (by decide) (str "59zzToko") (by decide)
    (by decide) 3 (by decide)

/-! ## Truncated payloads -/

theorem parseInt_nil : parseInt [] = none := by decide

theorem parseInt_digit : ∀ m < 10, parseInt [48 + m] = some (m : Int) := by decide

theorem loopBody_at (pre rest : JSString) (d : Obj) :
    loopBody (pre ++ rest) (pre.length : Int) d
      = (d.set (rest.take 2)
            (substr (pre ++ rest) ((pre.length : Int) + 4) (parseInt ((rest.drop 2).take 2))),
          (parseInt ((rest.drop 2).take 2)).map (fun l => (pre.length : Int) + (4 + l))) := by
  have h0 := substr_append pre rest 0 2
  have h2 := substr_append pre rest 2 2
  simp only [Nat.cast_zero, add_zero, Nat.cast_ofNat, List.drop_zero] at h0 h2
  unfold loopBody
  rw [h0, h2]

theorem fill_snoc (es : List Element) (t v : JSString) :
    (fill [] es).set t v = fill [] (es ++ [⟨t, v⟩]) := by
  rw [fill_append]; rfl

theorem get_set_of_length (d : Obj) (k v t : JSString) (h : k.length ≠ t.length) :
    (d.set k v).get t = d.get t := by
  rw [Obj.get_set, if_neg]
  intro hk; exact h (by rw [hk])

theorem parsedOf_set_short (d : Obj) (k v : JSString) (hk : k.length ≠ 2) :
    parsedOf (d.set k v) = parsedOf d := by
  have h : ∀ t : JSString, t.length = 2 → (d.set k v).get t = d.get t :=
    fun t ht => get_set_of_length d k v t (by omega)
  unfold parsedOf
  rw [h (str "00") rfl, h (str "26") rfl, h (str "52") rfl, h (str "53") rfl,
    h (str "54") rfl, h (str "58") rfl, h (str "59") rfl, h (str "60") rfl,
    h (str "61") rfl, h (str "62") rfl, h (str "63") rfl]

/-- The object at loop exit for a payload cut `j` code units into its last
element. -/
theorem loop_cut (es : List Element) (hes : ∀ e ∈ es, e.WF) (e : Element) (he : e.WF)
    (j : Nat) (hj : 0 < j) (hj2 : j < 4 + e.value.length)
    (fuel : Nat) (hf : es.length + 1 < fuel) :
    loop fuel (serialize es ++ e.serialize.take j) (some 0) []
      = some (if j = 1 then (fill [] es).set (e.tag.take 1) []
              else (fill [] es).set e.tag (e.value.take (j - 4))) := by
  obtain ⟨ht, hv⟩ := he
  obtain ⟨a, b, hab⟩ := List.length_eq_two.mp ht
  have hser : e.serialize
      = a :: b :: (48 + e.value.length / 10) :: (48 + e.value.length % 10) :: e.value := by
    simp [Element.serialize, pad2, hab]
  have hbody := loopBody_at (serialize es) (e.serialize.take j) (fill [] es)
  rw [hser] at hbody ⊢
  rw [hab]
  match j, hj, hj2 with
  | 1, _, _ =>
    simp only [List.take, List.drop, parseInt_nil, substr_nan, Option.map_none'] at hbody ⊢
    exact loop_tail es hes [a] (by simp) _ none hbody (by intro j hj; cases hj) fuel hf
  | 2, _, _ =>
    simp only [List.take, List.drop, parseInt_nil, substr_nan, Option.map_none'] at hbody ⊢
    exact loop_tail es hes [a, b] (by simp) _ none hbody (by intro j hj; cases hj) fuel hf
  | 3, _, _ =>
    have hd : e.value.length / 10 < 10 := by omega
    have hp := parseInt_digit (e.value.length / 10) hd
    have hsub := substr_append (serialize es) [a, b, 48 + e.value.length / 10] 4
      (e.value.length / 10)
    simp only [List.take, List.drop] at hbody ⊢
    rw [hp] at hbody
    simp only [Nat.cast_ofNat, List.drop, List.take_nil] at hsub
    rw [hsub] at hbody
    simp only [Option.map_some'] at hbody
    refine loop_tail es hes _ (by simp) _ _ hbody ?_ fuel hf
    intro i hi
    cases hi
    simp only [List.length_append, List.length_cons, List.length_nil]
    push_cast
    omega
  | m + 4, _, h2 =>
    have hp := parseInt_pad2 e.value.length hv
    have hsub := substr_append (serialize es)
      (a :: b :: (48 + e.value.length / 10) :: (48 + e.value.length % 10) :: e.value.take m) 4
      e.value.length
    have hm : m < e.value.length := by omega
    simp only [List.take, List.drop] at hbody ⊢
    have hp2 : parseInt [48 + e.value.length / 10, 48 + e.value.length % 10]
        = some (e.value.length : Int) := hp
    rw [hp2] at hbody
    simp only [Nat.cast_ofNat, List.drop, List.take_take] at hsub
    rw [hsub] at hbody
    simp only [Option.map_some'] at hbody
    have hmin : min e.value.length m = m := by omega
    rw [hmin] at hbody
    have hif : ¬ (m + 4 = 1) := by omega
    rw [if_neg hif, Nat.add_sub_cancel]
    refine loop_tail es hes _ (by simp) _ _ hbody ?_ fuel hf
    intro i hi
    cases hi
    simp only [List.length_append, List.length_cons, List.length_take]
    push_cast
    omega

/-- C3, as stated, fails: the payload `000201` cut in the middle of its value,
`00020`, is not rejected; `parseQRIS` returns a result whose
`payloadFormatIndicator` is the one character that is left. -/
theorem truncated_value_is_not_rejected :
    (serialize [⟨str "00", str "01"⟩]).take 5 = str "00020"
    ∧ parseQRIS 2 (str "00020")
      = some { raw := str "00020",
               parsed :=
                { payloadFormatIndicator := some (str "0")
                  merchantAccountInformation := none
                  merchantCategoryCode := none
                  transactionCurrency := none
                  transactionAmount := none
                  countryCode := none
                  merchantName := none
                  merchantCity := none
                  postalCode := none
                  additionalData := none
                  crc := none } } := by
  decide

/-- C3, amended: a well-formed payload cut off inside its last element `e`,
with `j` code units of that element kept (`0 < j < 4 + declared length`, so
the cut is in the tag, in the length field or in the value), is not rejected:
`parseQRIS` returns a result, with any fuel above the number of complete
elements plus one.  Cut after the first character of the tag, the named
fields are those of the complete elements before the cut.  Cut anywhere
later, the named fields are those of the payload in which the value of the
cut element is the part of its value that is left (the empty string when the
cut is in the length field). -/
theorem parseQRIS_truncated (es : List Element) (hes : ∀ e ∈ es, e.WF)
    (e : Element) (he : e.WF) (j : Nat) (hj : 0 < j) (hj2 : j < 4 + e.value.length)
    (fuel : Nat) (hf : es.length + 1 < fuel) :
    parseQRIS fuel ((serialize (es ++ [e])).take ((serialize es).length + j))
      = some { raw := (serialize (es ++ [e])).take ((serialize es).length + j),
               parsed := if j = 1 then lastWins es
                         else lastWins (es ++ [⟨e.tag, e.value.take (j - 4)⟩]) } := by
  have hcut : (serialize (es ++ [e])).take ((serialize es).length + j)
      = serialize es ++ e.serialize.take j := by
    rw [serialize_append, List.take_append]
    simp [serialize]
  rw [hcut]
  unfold parseQRIS
  rw [loop_cut es hes e he j hj hj2 fuel hf]
  by_cases h1 : j = 1
  · have hk : (e.tag.take 1).length ≠ 2 := by
      rw [List.length_take]; omega
    simp only [if_pos h1, Option.map_some', parsedOf_set_short _ _ _ hk, parsedOf_fill]
  · simp only [if_neg h1, Option.map_some', fill_snoc, parsedOf_fill]

theorem parseQRIS_truncated_witness :
    parseQRIS 3 ((serialize ([⟨str "00", str "01"⟩] ++ [⟨str "59", str "Toko"⟩])).take
        ((serialize [⟨str "00", str "01"⟩]).length + 6))
      = some { raw := (serialize ([⟨str "00", str "01"⟩] ++ [⟨str "59", str "Toko"⟩])).take
                  ((serialize [⟨str "00", str "01"⟩]).length + 6),
               parsed := if 6 = 1 then lastWins [⟨str "00", str "01"⟩]
                         else lastWins ([⟨str "00", str "01"⟩]
                            ++ [⟨(⟨str "59", str "Toko"⟩ : Element).tag,
                                 (⟨str "59", str "Toko"⟩ : Element).value.take (6 - 4)⟩]) } :=
  parseQRIS_truncated [⟨str "00", str "01"⟩] (by decide) ⟨str "59", str "Toko"⟩ (by decide)
    6 (by decide) (by decide) 3 (by decide)

/-! ## Repeated and unknown tags -/

theorem lastValue_cons (a : Element) (rest : List Element) (t : JSString) :
    lastValue (a :: rest) t = (lastValue rest t).or (lastValue [a] t) := by
  have := lastValue_append [a] rest t
  simpa using this

theorem lastValue_remove (xs rest : List Element) (a : Element) (t : JSString)
    (h : t = a.tag → lastValue rest t ≠ none) :
    lastValue (xs ++ a :: rest) t = lastValue (xs ++ rest) t := by
  rw [lastValue_append, lastValue_append, lastValue_cons, lastValue_singleton]
  by_cases ht : a.tag = t
  · have hne := h ht.symm
    cases hr : lastValue rest t with
    | none => exact absurd hr hne
    | some v => simp
  · simp [ht]

theorem lastWins_congr (es es2 : List Element)
    (h : ∀ t ∈ namedTags, lastValue es t = lastValue es2 t) : lastWins es = lastWins es2 := by
  unfold lastWins
  rw [h (str "00") (by simp [namedTags]), h (str "26") (by simp [namedTags]),
    h (str "52") (by simp [namedTags]), h (str "53") (by simp [namedTags]),
    h (str "54") (by simp [namedTags]), h (str "58") (by simp [namedTags]),
    h (str "59") (by simp [namedTags]), h (str "60") (by simp [namedTags]),
    h (str "61") (by simp [namedTags]), h (str "62") (by simp [namedTags]),
    h (str "63") (by simp [namedTags])]

theorem Obj.keys_set (d : Obj) (k v : JSString) :
    (d.set k v).keys = if k ∈ d.keys then d.keys else d.keys ++ [k] := by
  induction d with
  | nil => simp [Obj.set, Obj.keys]
  | cons p rest ih =>
    obtain ⟨k0, v0⟩ := p
    by_cases h0 : k0 = k
    · subst h0
      simp [Obj.set, Obj.keys]
    · have h0s : ¬ k = k0 := fun h => h0 h.symm
      have ih2 : List.map Prod.fst (Obj.set rest k v)
          = if k ∈ List.map Prod.fst rest then List.map Prod.fst rest
            else List.map Prod.fst rest ++ [k] := ih
      simp only [Obj.set, Obj.keys, if_neg h0, List.map_cons, List.mem_cons, h0s, false_or, ih2]
      split <;> simp

theorem Obj.nodup_keys_set (d : Obj) (k v : JSString) (h : d.keys.Nodup) :
    (d.set k v).keys.Nodup := by
  rw [Obj.keys_set]
  split
  · exact h
  · rename_i hk
    rw [List.nodup_append]
    refine ⟨h, List.nodup_singleton k, ?_⟩
    intro x hx hx2
    simp only [List.mem_singleton] at hx2
    subst hx2
    exact hk hx

theorem nodup_keys_fill (es : List Element) : (fill [] es).keys.Nodup := by
  induction es using List.reverseRecOn with
  | nil => simp [fill, Obj.keys]
  | append_singleton es e ih =>
    rw [fill_append]
    exact Obj.nodup_keys_set _ _ _ ih

theorem Obj.mem_keys_of_get (d : Obj) (t v : JSString) (h : d.get t = some v) : t ∈ d.keys := by
  induction d with
  | nil => simp [Obj.get] at h
  | cons p rest ih =>
    obtain ⟨k0, v0⟩ := p
    by_cases h0 : k0 = t
    · simp [Obj.keys, h0]
    · simp only [Obj.get, if_neg h0] at h
      have := ih h
      simp only [Obj.keys, List.map_cons, List.mem_cons]
      right; exact this

theorem Obj.no_entry (d : Obj) (t : JSString) (h : t ∉ d.keys) :
    d.filter (fun entry => decide (entry.1 = t)) = [] := by
  rw [List.filter_eq_nil_iff]
  intro entry he
  simp only [decide_eq_true_eq]
  intro h1
  exact h (h1 ▸ List.mem_map_of_mem Prod.fst he)

theorem Obj.one_entry (d : Obj) (t : JSString) (hn : d.keys.Nodup) (hm : t ∈ d.keys) :
    (d.filter (fun entry => decide (entry.1 = t))).length = 1 := by
  induction d with
  | nil => simp [Obj.keys] at hm
  | cons p rest ih =>
    obtain ⟨k0, v0⟩ := p
    have hn2 : k0 ∉ Obj.keys rest ∧ (Obj.keys rest).Nodup := List.nodup_cons.mp hn
    by_cases h0 : k0 = t
    · subst h0
      have := Obj.no_entry rest k0 hn2.1
      simp [List.filter_cons, this]
    · have hm2 : t ∈ Obj.keys rest := by
        have hm1 : t = k0 ∨ t ∈ Obj.keys rest := List.mem_cons.mp hm
        rcases hm1 with h | h
        · exact absurd h.symm h0
        · exact h
      simp only [List.filter_cons, h0, decide_False]
      exact ih hn2.2 hm2

/-- C4, as stated, fails: for the payload with the two elements `00 -> AA` and
`00 -> BB` the object built by the loop has the single entry `00 -> BB`; the
first occurrence is overwritten, and the named fields are those of the payload
that never contained it. -/
theorem duplicate_tag_first_value_dropped :
    serialize [⟨str "00", str "AA"⟩, ⟨str "00", str "BB"⟩] = str "0002AA0002BB"
    ∧ loop 3 (str "0002AA0002BB") (some 0) [] = some [(str "00", str "BB")]
    ∧ (parseQRIS 3 (str "0002AA0002BB")).map Result.parsed
        = (parseQRIS 2 (str "0002BB")).map Result.parsed := by
  decide

/-- C4, amended: for every well-formed payload that contains two top-level
elements `a` and, later, `b` with the same tag, `parseQRIS` returns, and the
object it builds holds ONE entry for that tag, whose value is that of the last
element carrying the tag (the value of `b` when no element after `b` carries
it); the earlier occurrence is overwritten, and the named fields of the result
are those of the payload without the earlier occurrence. -/
theorem parseQRIS_duplicate_keeps_last (xs ys zs : List Element) (a b : Element)
    (hes : ∀ e ∈ xs ++ a :: (ys ++ b :: zs), e.WF) (hab : a.tag = b.tag)
    (fuel : Nat) (hf : (xs ++ a :: (ys ++ b :: zs)).length < fuel) :
    ∃ data : Obj,
      loop fuel (serialize (xs ++ a :: (ys ++ b :: zs))) (some 0) [] = some data
      ∧ (data.filter (fun entry => decide (entry.1 = a.tag))).length = 1
      ∧ data.get a.tag = lastValue (xs ++ a :: (ys ++ b :: zs)) a.tag
      ∧ ((∀ z ∈ zs, z.tag ≠ b.tag) → data.get a.tag = some b.value)
      ∧ parseQRIS fuel (serialize (xs ++ a :: (ys ++ b :: zs)))
          = some { raw := serialize (xs ++ a :: (ys ++ b :: zs)),
                   parsed := lastWins (xs ++ (ys ++ b :: zs)) } := by
  have hloop := loop_serialize _ hes fuel hf
  have hlast : ∀ zs2 : List Element, (∀ z ∈ zs2, z.tag ≠ b.tag) →
      lastValue (xs ++ a :: (ys ++ b :: zs2)) a.tag = some b.value := by
    intro zs2 hz
    have h := lastValue_of_last (xs ++ a :: ys) zs2 b hz
    rw [hab]
    simpa using h
  have hsome : lastValue (xs ++ a :: (ys ++ b :: zs)) a.tag ≠ none := by
    rw [Ne, lastValue_eq_none_iff]
    intro h
    exact h a (by simp) rfl
  refine ⟨fill [] (xs ++ a :: (ys ++ b :: zs)), hloop, ?_, get_fill_nil _ _, ?_, ?_⟩
  · obtain ⟨v, hv⟩ := Option.ne_none_iff_exists'.mp hsome
    have hmem := Obj.mem_keys_of_get _ _ v ((get_fill_nil _ _).trans hv)
    exact Obj.one_entry _ _ (nodup_keys_fill _) hmem
  · intro hz
    rw [get_fill_nil, hlast zs hz]
  · rw [parseQRIS_serialize _ hes fuel hf]
    congr 2
    apply lastWins_congr
    intro t _
    apply lastValue_remove
    intro ht
    rw [Ne, lastValue_eq_none_iff]
    intro h
    exact h b (by simp) (by rw [ht, hab])

theorem parseQRIS_duplicate_keeps_last_witness :
    ∃ data : Obj,
      loop 4 (serialize ([⟨str "58", str "ID"⟩] ++ (⟨str "00", str "AA"⟩ : Element)
          :: ([] ++ (⟨str "00", str "BB"⟩ : Element) :: []))) (some 0) [] = some data
      ∧ (data.filter (fun entry => decide (entry.1 = (⟨str "00", str "AA"⟩ : Element).tag))).length
          = 1
      ∧ data.get (⟨str "00", str "AA"⟩ : Element).tag
          = lastValue ([⟨str "58", str "ID"⟩] ++ (⟨str "00", str "AA"⟩ : Element)
              :: ([] ++ (⟨str "00", str "BB"⟩ : Element) :: []))
              (⟨str "00", str "AA"⟩ : Element).tag
      ∧ ((∀ z ∈ ([] : List Element), z.tag ≠ (⟨str "00", str "BB"⟩ : Element).tag) →
          data.get (⟨str "00", str "AA"⟩ : Element).tag
            = some (⟨str "00", str "BB"⟩ : Element).value)
      ∧ parseQRIS 4 (serialize ([⟨str "58", str "ID"⟩] ++ (⟨str "00", str "AA"⟩ : Element)
          :: ([] ++ (⟨str "00", str "BB"⟩ : Element) :: [])))
          = some { raw := serialize ([⟨str "58", str "ID"⟩] ++ (⟨str "00", str "AA"⟩ : Element)
                      :: ([] ++ (⟨str "00", str "BB"⟩ : Element) :: [])),
                   parsed := lastWins ([⟨str "58", str "ID"⟩]
                      ++ ([] ++ (⟨str "00", str "BB"⟩ : Element) :: [])) } :=
  parseQRIS_duplicate_keeps_last [⟨str "58", str "ID"⟩] [] [] ⟨str "00", str "AA"⟩
    ⟨str "00", str "BB"⟩ (by decide) (by decide) 4 (by decide)

/-- C5: for well-formed element lists `xs`, `ys` and a well-formed element `u`
whose tag is none of the eleven named tags, `parseQRIS` on the payload
`xs ++ [u] ++ ys` returns (with any fuel above the number of elements), and
its named fields are the same as those returned for the payload `xs ++ ys`;
the parse reaches the start of `u`, and the loop body there moves the cursor
by exactly 4 plus the declared length of `u` and stores the value of `u` under
its own tag only. -/
theorem parseQRIS_unknown_tag (xs ys : List Element) (u : Element)
    (hxs : ∀ e ∈ xs, e.WF) (hys : ∀ e ∈ ys, e.WF) (hu : u.WF)
    (hunk : u.tag ∉ namedTags) (fuel : Nat) (hf : (xs ++ [u] ++ ys).length < fuel) :
    parseQRIS fuel (serialize (xs ++ [u] ++ ys))
        = some { raw := serialize (xs ++ [u] ++ ys), parsed := lastWins (xs ++ ys) }
    ∧ parseQRIS fuel (serialize (xs ++ ys))
        = some { raw := serialize (xs ++ ys), parsed := lastWins (xs ++ ys) }
    ∧ stateAfter xs.length (serialize (xs ++ [u] ++ ys)) (some 0) []
        = some (some ((serialize xs).length : Int), fill [] xs)
    ∧ ∀ d : Obj, loopBody (serialize (xs ++ [u] ++ ys)) ((serialize xs).length : Int) d
        = (d.set u.tag u.value,
            some (((serialize xs).length : Int) + (4 + (u.value.length : Int)))) := by
  have hall : ∀ e ∈ xs ++ [u] ++ ys, e.WF := by
    intro e he
    simp only [List.mem_append, List.mem_singleton] at he
    rcases he with (h | h) | h
    · exact hxs e h
    · rw [h]; exact hu
    · exact hys e h
  have hall2 : ∀ e ∈ xs ++ ys, e.WF := by
    intro e he
    rcases List.mem_append.mp he with h | h
    · exact hxs e h
    · exact hys e h
  have hser : serialize (xs ++ [u] ++ ys) = serialize xs ++ (u.serialize ++ serialize ys) := by
    simp [serialize_append, serialize]
  have hser2 : serialize (xs ++ [u] ++ ys) = serialize xs ++ (serialize (u :: ys) ++ []) := by
    simp [serialize_append, serialize]
  refine ⟨?_, ?_, ?_, ?_⟩
  · rw [parseQRIS_serialize _ hall fuel hf]
    congr 2
    apply lastWins_congr
    intro t ht
    have hsplit : xs ++ [u] ++ ys = xs ++ u :: ys := by simp
    rw [hsplit]
    apply lastValue_remove
    intro htu
    exact absurd (htu ▸ ht) hunk
  · apply parseQRIS_serialize _ hall2 fuel
    simp only [List.length_append, List.length_singleton] at hf ⊢
    omega
  · have h := stateAfter_elements xs hxs [] (serialize (u :: ys)) []
    simp only [List.nil_append, List.length_nil, Nat.cast_zero] at h
    rw [hser2]
    simpa using h
  · intro d
    rw [hser]
    exact loopBody_element (serialize xs) (serialize ys) u hu d

theorem parseQRIS_unknown_tag_witness :
    parseQRIS 4 (serialize ([⟨str "00", str "01"⟩] ++ [⟨str "99", str "0002ZZ"⟩]
        ++ [⟨str "58", str "ID"⟩]))
        = some { raw := serialize ([⟨str "00", str "01"⟩] ++ [⟨str "99", str "0002ZZ"⟩]
                    ++ [⟨str "58", str "ID"⟩]),
                 parsed := lastWins ([⟨str "00", str "01"⟩] ++ [⟨str "58", str "ID"⟩]) }
    ∧ parseQRIS 4 (serialize ([⟨str "00", str "01"⟩] ++ [⟨str "58", str "ID"⟩]))
        = some { raw := serialize ([⟨str "00", str "01"⟩] ++ [⟨str "58", str "ID"⟩]),
                 parsed := lastWins ([⟨str "00", str "01"⟩] ++ [⟨str "58", str "ID"⟩]) }
    ∧ stateAfter [(⟨str "00", str "01"⟩ : Element)].length
          (serialize ([⟨str "00", str "01"⟩] ++ [⟨str "99", str "0002ZZ"⟩]
            ++ [⟨str "58", str "ID"⟩])) (some 0) []
        = some (some ((serialize [⟨str "00", str "01"⟩]).length : Int),
            fill [] [⟨str "00", str "01"⟩])
    ∧ ∀ d : Obj, loopBody (serialize ([⟨str "00", str "01"⟩] ++ [⟨str "99", str "0002ZZ"⟩]
          ++ [⟨str "58", str "ID"⟩])) ((serialize [⟨str "00", str "01"⟩]).length : Int) d
        = (d.set (⟨str "99", str "0002ZZ"⟩ : Element).tag (⟨str "99", str "0002ZZ"⟩ : Element).value,
            some (((serialize [⟨str "00", str "01"⟩]).length : Int)
              + (4 + ((⟨str "99", str "0002ZZ"⟩ : Element).value.length : Int)))) :=
  parseQRIS_unknown_tag [⟨str "00", str "01"⟩] [⟨str "58", str "ID"⟩] ⟨str "99", str "0002ZZ"⟩
    (by decide) (by decide) (by decide) (by decide) 4 (by decide)

/-! ## The checksum element -/

theorem serialize_crc (xs : List Element) (c : JSString) (hc : c.length = 4) :
    serialize xs ++ str "6304" ++ c = serialize (xs ++ [⟨str "63", c⟩]) := by
  have h : str "6304" = str "63" ++ pad2 4 := by decide
  rw [serialize_append]
  simp [serialize, Element.serialize, hc, h]

theorem lastWins_crc (xs : List Element) (c : JSString) :
    lastWins (xs ++ [⟨str "63", c⟩]) = { lastWins xs with crc := some c } := by
  have h00 : ¬ (str "63" = str "00") := by decide
  have h26 : ¬ (str "63" = str "26") := by decide
  have h52 : ¬ (str "63" = str "52") := by decide
  have h53 : ¬ (str "63" = str "53") := by decide
  have h54 : ¬ (str "63" = str "54") := by decide
  have h58 : ¬ (str "63" = str "58") := by decide
  have h59 : ¬ (str "63" = str "59") := by decide
  have h60 : ¬ (str "63" = str "60") := by decide
  have h61 : ¬ (str "63" = str "61") := by decide
  have h62 : ¬ (str "63" = str "62") := by decide
  simp only [lastWins, lastValue_append_singleton, if_neg h00, if_neg h26, if_neg h52,
    if_neg h53, if_neg h54, if_neg h58, if_neg h59, if_neg h60, if_neg h61, if_neg h62,
    if_true]

/-- C8: for every well-formed element list `xs` and any two strings `c1`, `c2`
of four code units, `parseQRIS` on `serialize xs ++ "6304" ++ c1` and on
`serialize xs ++ "6304" ++ c2` both return (with any fuel above the number of
elements plus one); the `crc` fields of the results are `c1` and `c2`,
verbatim, and the ten other named fields are equal in the two results.  No
checksum is computed, so nothing depends on what `c1` and `c2` are.  (The
property holds whether or not `xs` contains an element of tag 63.) -/
theorem parseQRIS_crc_not_checked (xs : List Element) (hxs : ∀ e ∈ xs, e.WF)
    (c1 c2 : JSString) (h1 : c1.length = 4) (h2 : c2.length = 4)
    (fuel : Nat) (hf : xs.length + 1 < fuel) :
    ∃ r1 r2 : Result,
      parseQRIS fuel (serialize xs ++ str "6304" ++ c1) = some r1
      ∧ parseQRIS fuel (serialize xs ++ str "6304" ++ c2) = some r2
      ∧ r1.raw = serialize xs ++ str "6304" ++ c1
      ∧ r2.raw = serialize xs ++ str "6304" ++ c2
      ∧ r1.parsed.crc = some c1
      ∧ r2.parsed.crc = some c2
      ∧ r1.parsed.payloadFormatIndicator = r2.parsed.payloadFormatIndicator
      ∧ r1.parsed.merchantAccountInformation = r2.parsed.merchantAccountInformation
      ∧ r1.parsed.merchantCategoryCode = r2.parsed.merchantCategoryCode
      ∧ r1.parsed.transactionCurrency = r2.parsed.transactionCurrency
      ∧ r1.parsed.transactionAmount = r2.parsed.transactionAmount
      ∧ r1.parsed.countryCode = r2.parsed.countryCode
      ∧ r1.parsed.merchantName = r2.parsed.merchantName
      ∧ r1.parsed.merchantCity = r2.parsed.merchantCity
      ∧ r1.parsed.postalCode = r2.parsed.postalCode
      ∧ r1.parsed.additionalData = r2.parsed.additionalData := by
  have hwf : ∀ c : JSString, c.length = 4 → ∀ e ∈ xs ++ [(⟨str "63", c⟩ : Element)], e.WF := by
    intro c hc e he
    rcases List.mem_append.mp he with h | h
    · exact hxs e h
    · rw [List.mem_singleton.mp h]
      exact ⟨rfl, by show c.length ≤ 99; omega⟩
  have hlen : ∀ c : JSString, (xs ++ [(⟨str "63", c⟩ : Element)]).length < fuel := by
    intro c; simp only [List.length_append, List.length_singleton]; exact hf
  have hp : ∀ c : JSString, c.length = 4 →
      parseQRIS fuel (serialize xs ++ str "6304" ++ c)
        = some { raw := serialize xs ++ str "6304" ++ c,
                 parsed := { lastWins xs with crc := some c } } := by
    intro c hc
    rw [serialize_crc xs c hc, parseQRIS_serialize _ (hwf c hc) fuel (hlen c), lastWins_crc]
  exact ⟨_, _, hp c1 h1, hp c2 h2, rfl, rfl, rfl, rfl, rfl, rfl, rfl, rfl, rfl, rfl, rfl, rfl,
    rfl, rfl⟩

theorem parseQRIS_crc_not_checked_witness :
    ∃ r1 r2 : Result,
      parseQRIS 4 (serialize [⟨str "00", str "01"⟩, ⟨str "58", str "ID"⟩] ++ str "6304"
          ++ str "ABCD") = some r1
      ∧ parseQRIS 4 (serialize [⟨str "00", str "01"⟩, ⟨str "58", str "ID"⟩] ++ str "6304"
          ++ str "1a2b") = some r2
      ∧ r1.raw = serialize [⟨str "00", str "01"⟩, ⟨str "58", str "ID"⟩] ++ str "6304" ++ str "ABCD"
      ∧ r2.raw = serialize [⟨str "00", str "01"⟩, ⟨str "58", str "ID"⟩] ++ str "6304" ++ str "1a2b"
      ∧ r1.parsed.crc = some (str "ABCD")
      ∧ r2.parsed.crc = some (str "1a2b")
      ∧ r1.parsed.payloadFormatIndicator = r2.parsed.payloadFormatIndicator
      ∧ r1.parsed.merchantAccountInformation = r2.parsed.merchantAccountInformation
      ∧ r1.parsed.merchantCategoryCode = r2.parsed.merchantCategoryCode
      ∧ r1.parsed.transactionCurrency = r2.parsed.transactionCurrency
      ∧ r1.parsed.transactionAmount = r2.parsed.transactionAmount
      ∧ r1.parsed.countryCode = r2.parsed.countryCode
      ∧ r1.parsed.merchantName = r2.parsed.merchantName
      ∧ r1.parsed.merchantCity = r2.parsed.merchantCity
      ∧ r1.parsed.postalCode = r2.parsed.postalCode
      ∧ r1.parsed.additionalData = r2.parsed.additionalData :=
  parseQRIS_crc_not_checked [⟨str "00", str "01"⟩, ⟨str "58", str "ID"⟩] (by decide)
    (str "ABCD") (str "1a2b") (by decide) (by decide) 4 (by decide)

/-! ## The upload filter -/

theorem occursIn_of_suffix (p a b s : JSString) (h : s = a ++ (p ++ b)) : occursIn p s = true := by
  unfold occursIn
  rw [List.any_eq_true]
  refine ⟨p ++ b, ?_, ?_⟩
  · rw [List.mem_tails, h]
    exact List.suffix_append a (p ++ b)
  · rw [List.isPrefixOf_iff_prefix]
    exact List.prefix_append p b

theorem allowedTypes_test_of_isSuffixOf (dotted s : JSString)
    (hd : dotted = str ".jpeg" ∨ dotted = str ".jpg" ∨ dotted = str ".png")
    (h : dotted.isSuffixOf s = true) : allowedTypes_test s = true := by
  rw [List.isSuffixOf_iff_suffix] at h
  obtain ⟨a, ha⟩ := h
  unfold allowedTypes_test
  rcases hd with rfl | rfl | rfl
  · have : occursIn (str "jpeg") s = true :=
      occursIn_of_suffix (str "jpeg") (a ++ str ".") [] s (by rw [← ha]; simp; decide)
    simp [this]
  · have : occursIn (str "jpg") s = true :=
      occursIn_of_suffix (str "jpg") (a ++ str ".") [] s (by rw [← ha]; simp; decide)
    simp [this]
  · have : occursIn (str "png") s = true :=
      occursIn_of_suffix (str "png") (a ++ str ".") [] s (by rw [← ha]; simp; decide)
    simp [this]

/-- Every file that the specification describes as an accepted image is
accepted by the filter. -/
theorem fileFilter_of_claimedAccept (file : File) (h : claimedAccept file = true) :
    fileFilter file = Callback.accept := by
  unfold claimedAccept at h
  simp only [Bool.and_eq_true, Bool.or_eq_true, beq_iff_eq] at h
  obtain ⟨hname, hmime⟩ := h
  have hext : allowedTypes_test (toLowerCase file.originalname) = true := by
    rcases hname with (h | h) | h
    · exact allowedTypes_test_of_isSuffixOf _ _ (Or.inl rfl) h
    · exact allowedTypes_test_of_isSuffixOf _ _ (Or.inr (Or.inl rfl)) h
    · exact allowedTypes_test_of_isSuffixOf _ _ (Or.inr (Or.inr rfl)) h
  have hm : allowedTypes_test file.mimetype = true := by
    rcases hmime with (h | h) | h <;> rw [h] <;> decide
  unfold fileFilter
  simp [hext, hm]

/-- The filter either accepts or rejects with the one error message. -/
theorem fileFilter_outcome (file : File) :
    fileFilter file = Callback.accept
    ∨ fileFilter file
        = Callback.error "Hanya file gambar (JPEG, JPG, PNG) yang diperbolehkan!" := by
  unfold fileFilter
  by_cases h : (allowedTypes_test file.mimetype && allowedTypes_test (toLowerCase file.originalname)) = true
  · left; simp only [h, if_true]
  · right; simp only [h]; rfl

/-- C9 (the code accepts more than the image files): the file named
`jpeg.exe` with MIME type `application/x-jpg` has none of the extensions
`.jpeg`, `.jpg`, `.png` and none of the MIME types `image/jpeg`, `image/jpg`,
`image/png`, yet both unanchored tests of `/jpeg|jpg|png/` succeed and the
filter accepts it. -/
theorem fileFilter_accepts_non_image :
    claimedAccept ⟨str "jpeg.exe", str "application/x-jpg"⟩ = false
    ∧ allowedTypes_test (toLowerCase (str "jpeg.exe")) = true
    ∧ allowedTypes_test (str "application/x-jpg") = true
    ∧ fileFilter ⟨str "jpeg.exe", str "application/x-jpg"⟩ = Callback.accept := by
  decide

end QRIS
